import Mathlib

/-
Verification of the goodmetrics_rs metrics library core against its
specification.  The Rust sources embedded here are
`src/pipeline/aggregating_sink.rs` (statistic sets, histograms, base-10
significant-figure bucketing, the nested aggregation map and the bounded
channel sink) and `src/metrics_factory.rs` (the factory `emit` path and its
behavior flags).  Rust `HashMap`/`BTreeMap` values are modelled as
association lists with unique keys; `i64`/`u64` arithmetic is modelled on
`Int`/`Nat` (no wrap-around is exercised by the statements below);
the `f64` steps of the bucketing function are modelled as exact real
arithmetic, as explained on `bucket_10`.
-/

namespace Goodmetrics

/-- Metric, dimension-key, or measurement-key identifier (`types::Name`; the
file `types.rs` is not part of the embedded sources).  Modelled from the spec:
an owned string with value-based equality and ordering. -/
abbrev Name := String

/-- Dimension value (`types::Dimension`, not part of the embedded sources).
Modelled from the spec: an owned string value attached to a `Name`. -/
abbrev Dimension := String

/-- One or many numeric samples (`types::Distribution`, whose constructors
`I64`, `I32`, `U64`, `U32` and `Collection` are pattern-matched by
`accumulate_distribution` in `aggregating_sink.rs`).  Modelled from the spec:
each sample is normalized to a 64-bit signed integer, represented as `Int`. -/
inductive Distribution where
  | i64 (i : Int)
  | i32 (i : Int)
  | u64 (i : Int)
  | u32 (i : Int)
  | collection (is : List Int)
deriving DecidableEq, Repr

/-- All samples carried by a `Distribution`, each normalized to `Int`. -/
def Distribution.samples : Distribution → List Int
  | .i64 i => [i]
  | .i32 i => [i]
  | .u64 i => [i]
  | .u32 i => [i]
  | .collection is => is

/-- A recorded measurement (`types::Measurement`, matched in
`update_metrics_map`): either a scalar `Observation` or a `Distribution`.
The observation scalar is its `i64` normalization. -/
inductive Measurement where
  | observation (value : Int)
  | distribution (d : Distribution)
deriving DecidableEq, Repr

/-- Largest `i64` value, used by `StatisticSet::default`. -/
def i64Max : Int := 2 ^ 63 - 1

/-- Smallest `i64` value, used by `StatisticSet::default`. -/
def i64Min : Int := -(2 ^ 63)

/-- Running statistics aggregation, from `struct StatisticSet` in
`aggregating_sink.rs` (`min`, `max`, `sum` are `i64`, `count` is `u64`). -/
structure StatisticSet where
  min : Int
  max : Int
  sum : Int
  count : Nat
deriving DecidableEq, Repr

/-- From `impl Default for StatisticSet`: the sentinel starting value
`{min: i64::MAX, max: i64::MIN, sum: 0, count: 0}`. -/
def StatisticSet.default : StatisticSet :=
  { min := i64Max, max := i64Min, sum := 0, count := 0 }

/-- From `StatisticSet::accumulate`: fold one normalized `i64` value into the
running statistics. -/
def StatisticSet.accumulate (s : StatisticSet) (value : Int) : StatisticSet :=
  { min := Min.min value s.min
    max := Max.max value s.max
    sum := s.sum + value
    count := s.count + 1 }

/-- Lookup in an association list, modelling `HashMap`/`BTreeMap` `get`.
The embedded maps keep at most one binding per key. -/
def lookupA {α β : Type} [DecidableEq α] : List (α × β) → α → Option β
  | [], _ => none
  | (k, v) :: rest, key => if k = key then some v else lookupA rest key

/-- In-place entry update for an association list, modelling the Rust
`HashMap::entry` API: the binding of `key` is replaced by `f (some old)`
where it stands, or `(key, f none)` is appended when absent. -/
def updateA {α β : Type} [DecidableEq α] (key : α) (f : Option β → β) :
    List (α × β) → List (α × β)
  | [] => [(key, f none)]
  | (k, v) :: rest =>
    if k = key then (k, f (some v)) :: rest else (k, v) :: updateA key f rest

/-- Fuel-driven ceiling base-10 logarithm: `ceilLog10Aux fuel n` computes the
least `k` with `n ≤ 10 ^ k` whenever `n ≤ fuel` (shown against `Nat.clog`
below).  Structural recursion on the fuel keeps it kernel-reducible. -/
def ceilLog10Aux : Nat → Nat → Nat
  | 0, _ => 0
  | fuel + 1, n => if n ≤ 1 then 0 else ceilLog10Aux fuel ((n + 9) / 10) + 1

/-- Ceiling base-10 logarithm of a natural number: the exact value of
`(x as f64).log10().ceil()` for a positive integer `x` in the range where
`f64` resolves it. -/
def ceilLog10 (n : Nat) : Nat := ceilLog10Aux n n

/-- Exact ceiling division on naturals: the value of `(a as f64 / m).ceil()`
in the range where `f64` resolves it. -/
def ceilDivNat (a m : Nat) : Nat := (a + m - 1) / m

/-- Fuel-driven binary length: `bitLen n` is the number of binary digits of
`n` (0 for 0).  Structural recursion on the fuel keeps it kernel-reducible. -/
def bitLenAux : Nat → Nat → Nat
  | 0, _ => 0
  | fuel + 1, n => if n = 0 then 0 else bitLenAux fuel (n / 2) + 1

/-- Number of binary digits of a natural number. -/
def bitLen (n : Nat) : Nat := bitLenAux n n

/-- Rounding of a nonnegative integer to the `f64` grid: the exact value of
`n as f64` under IEEE-754 round-to-nearest, ties-to-even (the semantics Rust
guarantees for integer-to-float casts).  Integers below `2^53` are exactly
representable; a larger `n` keeps its top 53 binary digits, with the cut-off
remainder rounding the 53-bit significand to nearest, ties to even. -/
def roundF64 (n : Nat) : Nat :=
  if n < 2 ^ 53 then n
  else
    let e := bitLen n - 53
    let q := n / 2 ^ e
    let r := n % 2 ^ e
    let half := 2 ^ (e - 1)
    if r < half then q * 2 ^ e
    else if half < r then (q + 1) * 2 ^ e
    else if q % 2 = 0 then q * 2 ^ e
    else (q + 1) * 2 ^ e

/-- Translation of `bucket_10::<FIGURES>` from `aggregating_sink.rs`:

    let power = ((value.abs() as f64).log10().ceil() as i32 - FIGURES).max(0);
    let magnitude = 10_f64.powi(power);
    value.signum() * (value.abs() as f64 / magnitude).ceil() as i64 * magnitude as i64

The `value.abs() as f64` cast is modelled exactly: `natAbs` followed by
`roundF64`, the IEEE round-to-nearest-even onto the 53-bit `f64` grid
(`i64::MIN.abs()` overflow stays outside the model — `natAbs` is total).
The remaining `f64` steps are modelled as exact arithmetic on that rounded
operand: `log10().ceil()` becomes `ceilLog10`, division-then-`ceil` becomes
`ceilDivNat`, and `powi` becomes an exact natural power (`10^power` is a
representable `f64` for every power reachable from an `i64`, so `powi` is
genuinely exact; the logarithm and division are exact at every input
exercised by the theorems below).  The `(... as i32 - FIGURES).max(0)` clamp
is the truncated natural subtraction. -/
def bucket_10 (figures : Nat) (value : Int) : Int :=
  let a : Nat := roundF64 value.natAbs
  let power : Nat := ceilLog10 a - figures
  let magnitude : Nat := 10 ^ power
  value.sign * (ceilDivNat a magnitude : Int) * (magnitude : Int)

/-- Translation of `bucket_10_2_sigfigs`: two significant figures. -/
def bucket_10_2_sigfigs (value : Int) : Int := bucket_10 2 value

/-- Histogram aggregation (`type Histogram = HashMap<i64, u64>`): bucket
value to occurrence count, as an association list. -/
def Histogram := List (Int × Nat)
deriving DecidableEq, Repr

/-- From `enum Aggregation` in `aggregating_sink.rs`: either a histogram or
a statistic set. -/
inductive Aggregation where
  | histogram (h : Histogram)
  | statisticSet (s : StatisticSet)
deriving DecidableEq, Repr

/-- A dimension position (`type DimensionPosition = BTreeMap<Name, Dimension>`):
the key-sorted association list of dimension pairs. -/
def DimensionPosition := List (Name × Dimension)
deriving DecidableEq, Repr

/-- Named measurement aggregations within one dimension position
(`type MeasurementAggregationMap = HashMap<Name, Aggregation>`). -/
def MeasurementAggregationMap := List (Name × Aggregation)
deriving DecidableEq, Repr

/-- Per-metric map from dimension position to measurement aggregations
(`type DimensionedMeasurementsMap`). -/
def DimensionedMeasurementsMap := List (DimensionPosition × MeasurementAggregationMap)
deriving DecidableEq, Repr

/-- Top-level aggregation state (`type MetricsMap = HashMap<Name, ...>`). -/
def MetricsMap := List (Name × DimensionedMeasurementsMap)
deriving DecidableEq, Repr

/-- Single ordered-map insertion, modelling `BTreeMap::insert`: the pair is
placed at its key's sorted position, replacing an existing binding of the
same key. -/
def btreeInsert {α β : Type} [LinearOrder α] (kv : α × β) :
    List (α × β) → List (α × β)
  | [] => [kv]
  | (k, v) :: rest =>
    if kv.1 < k then kv :: (k, v) :: rest
    else if kv.1 = k then kv :: rest
    else (k, v) :: btreeInsert kv rest

/-- Draining a metrics object's dimension map into a `BTreeMap`
(`sunk_metrics.dimensions.drain().collect()` in `update_metrics_map`): fold
every pair into an ordered map.  The list order of `dims` stands for the
arbitrary `HashMap` iteration order. -/
def dimensionPosition (dims : List (Name × Dimension)) : DimensionPosition :=
  dims.foldl (fun acc kv => btreeInsert kv acc) []

/-- Behavior flags (`enum MetricsBehavior` in `metrics.rs`, not part of the
embedded sources).  Modelled from the spec: an open set of named bits — at
minimum `Default`, `Suppress`, `SuppressTotalTime` — combined by bitwise OR;
`Suppress` and `SuppressTotalTime` occupy distinct bits. -/
inductive MetricsBehavior where
  | Default
  | Suppress
  | SuppressTotalTime
deriving DecidableEq, Repr

/-- Bit value of each behavior flag.  Modelled from the spec: distinct bits
for the two suppression flags, `Default` adding no bit of its own. -/
def MetricsBehavior.mask : MetricsBehavior → Nat
  | .Default => 0
  | .Suppress => 1
  | .SuppressTotalTime => 2

/-- A single scope's accumulated state (`struct Metrics` in `metrics.rs`,
not part of the embedded sources).  Modelled from the spec: name, start
time (an instant, modelled as nanoseconds on an abstract clock), behavior
bitmask, dimension map and measurement map.  The association lists stand for
the Rust `HashMap`s (unique keys; list order models iteration order). -/
structure Metrics where
  metrics_name : Name
  start_time : Nat
  behavior : Nat
  dimensions : List (Name × Dimension)
  measurements : List (Name × Measurement)
deriving DecidableEq, Repr

/-- Behavior test (`Metrics::has_behavior`, not part of the embedded
sources).  Modelled from the spec: bitmask membership of the flag's bit. -/
def Metrics.has_behavior (m : Metrics) (b : MetricsBehavior) : Bool :=
  m.behavior &&& b.mask ≠ 0

/-- Recording a distribution sample (`Metrics::distribution`, not part of
the embedded sources).  Modelled from the spec: append to (or create) the
`Distribution` stored under `name`. -/
def Metrics.distribution (m : Metrics) (name : Name) (value : Int) : Metrics :=
  { m with
    measurements :=
      updateA name
        (fun old =>
          match old with
          | some (.distribution d) => .distribution (.collection (d.samples ++ [value]))
          | _ => .distribution (.i64 value))
        m.measurements }

/-- Translation of the free function `accumulate_statisticset` in
`aggregating_sink.rs`: `entry(name).or_insert_with(StatisticSet::default)`,
then accumulate into a `StatisticSet`, or log an error (no change) when the
entry holds a `Histogram`. -/
def accumulate_statisticset (measurements_map : MeasurementAggregationMap)
    (name : Name) (observation : Int) : MeasurementAggregationMap :=
  updateA name
    (fun entry =>
      match entry.getD (.statisticSet StatisticSet.default) with
      | .statisticSet s => .statisticSet (s.accumulate observation)
      | .histogram h => .histogram h)
    measurements_map

/-- One histogram bucket increment
(`histogram.entry(bucket_10_2_sigfigs(v)).and_modify(|c| *c += 1).or_insert(1)`). -/
def histogramAccumulate (h : Histogram) (value : Int) : Histogram :=
  updateA (bucket_10_2_sigfigs value)
    (fun c => match c with | none => 1 | some n => n + 1) h

/-- Translation of the free function `accumulate_distribution` in
`aggregating_sink.rs`: `entry(name).or_insert_with(Histogram::default)`, then
bucket every sample of the distribution into the histogram, or log an error
(no change) when the entry holds a `StatisticSet`. -/
def accumulate_distribution (measurements_map : MeasurementAggregationMap)
    (name : Name) (distribution : Distribution) : MeasurementAggregationMap :=
  updateA name
    (fun entry =>
      match entry.getD (.histogram []) with
      | .statisticSet s => .statisticSet s
      | .histogram h =>
        .histogram
          (match distribution with
           | .i64 i => histogramAccumulate h i
           | .i32 i => histogramAccumulate h i
           | .u64 i => histogramAccumulate h i
           | .u32 i => histogramAccumulate h i
           | .collection is => is.foldl histogramAccumulate h))
    measurements_map

/-- Translation of `AggregatingSink::update_metrics_map`: look up (or create)
the per-metric-name entry, derive the `DimensionPosition` by draining the
dimension map into a `BTreeMap`, look up (or create) the per-position
measurement map, then fold every drained `(name, Measurement)` pair into it.
The measurement list order models the arbitrary `HashMap` drain order. -/
def update_metrics_map (map : MetricsMap) (sunk_metrics : Metrics) : MetricsMap :=
  updateA sunk_metrics.metrics_name
    (fun dm =>
      updateA (dimensionPosition sunk_metrics.dimensions)
        (fun mm =>
          sunk_metrics.measurements.foldl
            (fun acc nm =>
              match nm.2 with
              | .observation o => accumulate_statisticset acc nm.1 o
              | .distribution d => accumulate_distribution acc nm.1 d)
            (mm.getD []))
        (dm.getD []))
    map

/-- The factory `emit` path (`MetricsFactory::emit` in `metrics_factory.rs`):

    if metrics.has_behavior(Suppress) { return; }
    if !metrics.has_behavior(SuppressTotalTime) {
        let elapsed = metrics.start_time.elapsed();
        metrics.distribution("totaltime", elapsed);
    }
    self.sink.accept(metrics)

`now` is the abstract clock at emission, so `elapsed = now - start_time`
(nanoseconds).  The result is the object handed to `sink.accept`, or `none`
when the object is discarded without any sink call. -/
def emit (now : Nat) (metrics : Metrics) : Option Metrics :=
  if metrics.has_behavior .Suppress then none
  else if ¬ metrics.has_behavior .SuppressTotalTime then
    some (metrics.distribution "totaltime" ((now - metrics.start_time : Nat) : Int))
  else some metrics

/-- State of an `AggregatingSink`: the mutex-guarded aggregation map and the
bounded channel, the latter modelled as the queue of in-flight metrics
objects together with its capacity. -/
structure AggregatingSink where
  queue : List Metrics
  bound : Nat
  map : MetricsMap

/-- From `AggregatingSink::new_with_bound`: empty map, channel of capacity
`bound`. -/
def AggregatingSink.new_with_bound (bound : Nat) : AggregatingSink :=
  { queue := [], bound := bound, map := [] }

/-- From `AggregatingSink::new`: the default channel bound is 1024. -/
def AggregatingSink.new : AggregatingSink :=
  AggregatingSink.new_with_bound 1024

/-- From `impl Sink for AggregatingSink`: `accept` does one non-blocking
`try_send`; the object is enqueued when the channel has room and silently
dropped (with an error log) otherwise. -/
def AggregatingSink.accept (s : AggregatingSink) (metrics_ref : Metrics) :
    AggregatingSink :=
  if s.queue.length < s.bound then { s with queue := s.queue ++ [metrics_ref] }
  else s

/-- From `AggregatingSink::run_aggregator_forever`: the single consumer
drains the channel, folding every received object into the map; this is the
map after the queue is fully drained. -/
def AggregatingSink.run_aggregator (s : AggregatingSink) : MetricsMap :=
  s.queue.foldl update_metrics_map s.map

/-- Updating a key reads back as the update applied to the old binding. -/
theorem lookupA_updateA_self {α β : Type} [DecidableEq α] (key : α)
    (f : Option β → β) (l : List (α × β)) :
    lookupA (updateA key f l) key = some (f (lookupA l key)) := by
  induction l with
  | nil => simp [lookupA, updateA]
  | cons kv rest ih =>
    obtain ⟨k, v⟩ := kv
    by_cases hk : k = key
    · simp [lookupA, updateA, hk]
    · simp [lookupA, updateA, hk, ih]

/-- Updating a key leaves every other key's binding unchanged. -/
theorem lookupA_updateA_ne {α β : Type} [DecidableEq α] {key k : α}
    (hne : k ≠ key) (f : Option β → β) (l : List (α × β)) :
    lookupA (updateA key f l) k = lookupA l k := by
  induction l with
  | nil => simp [lookupA, updateA, Ne.symm hne]
  | cons kv rest ih =>
    obtain ⟨k', v⟩ := kv
    by_cases h1 : k' = key
    · have h2 : k' ≠ k := by rw [h1]; exact Ne.symm hne
      simp [lookupA, updateA, h1, h2, Ne.symm hne]
    · by_cases h2 : k' = k <;>
        simp [lookupA, updateA, h1, h2, ih, hne, Ne.symm hne]

/-- An update that maps the present binding to itself is the identity. -/
theorem updateA_of_lookup_fix {α β : Type} [DecidableEq α] (key : α)
    (f : Option β → β) (l : List (α × β)) (v : β)
    (hl : lookupA l key = some v) (hf : f (some v) = v) :
    updateA key f l = l := by
  induction l with
  | nil => simp [lookupA] at hl
  | cons kv rest ih =>
    obtain ⟨k, w⟩ := kv
    by_cases hk : k = key
    · have hw : w = v := by simpa [lookupA, hk] using hl
      subst hw
      simp [updateA, hk, hf]
    · have hl' : lookupA rest key = some v := by simpa [lookupA, hk] using hl
      simp [updateA, hk, ih hl']

/-- C4: when a measurement name is already bound to a `StatisticSet`, feeding
it a `Distribution` value leaves the whole aggregation map unchanged (the
value is discarded, only an error is logged); symmetrically, feeding an
`Observation` to a name bound to a `Histogram` leaves the map unchanged. -/
theorem c4_kind_conflict_rejected :
    (∀ (mm : MeasurementAggregationMap) (name : Name) (d : Distribution)
        (s : StatisticSet),
      lookupA mm name = some (.statisticSet s) →
      accumulate_distribution mm name d = mm) ∧
    (∀ (mm : MeasurementAggregationMap) (name : Name) (o : Int) (h : Histogram),
      lookupA mm name = some (.histogram h) →
      accumulate_statisticset mm name o = mm) := by
  constructor
  · intro mm name d s hl
    exact updateA_of_lookup_fix _ _ _ _ hl rfl
  · intro mm name o h hl
    exact updateA_of_lookup_fix _ _ _ _ hl rfl

/-- C4 witness: both conflict directions at concrete maps. -/
theorem c4_witness :
    accumulate_distribution [("v", Aggregation.statisticSet
        { min := 1, max := 2, sum := 3, count := 2 })] "v" (.i64 5)
      = [("v", Aggregation.statisticSet { min := 1, max := 2, sum := 3, count := 2 })] ∧
    accumulate_statisticset [("w", Aggregation.histogram [(10, 2)])] "w" 5
      = [("w", Aggregation.histogram [(10, 2)])] :=
  ⟨c4_kind_conflict_rejected.1 _ "v" (.i64 5)
      { min := 1, max := 2, sum := 3, count := 2 } (by decide),
   c4_kind_conflict_rejected.2 _ "w" 5 [(10, 2)] (by decide)⟩

/-- C2: an object carrying the `Suppress` behavior is discarded by `emit`
with no sink call and no totaltime sample, whatever its dimensions and
measurements. -/
theorem c2_suppress_discards_without_sink_call :
    ∀ (now : Nat) (m : Metrics),
      m.has_behavior .Suppress = true → emit now m = none := by
  intro now m h
  simp [emit, h]

/-- C2 witness: a concrete suppressed object is dropped. -/
theorem c2_witness :
    emit 7 { metrics_name := "x", start_time := 2, behavior := 1,
             dimensions := [("d", "v")],
             measurements := [("m", Measurement.observation 3)] } = none :=
  c2_suppress_discards_without_sink_call 7 _ (by decide)

/-- C3: without `Suppress`, `emit` hands the sink the object with exactly one
additional `totaltime` distribution sample equal to the elapsed time since
`start_time` — when `SuppressTotalTime` is unset — and hands it over
unchanged when `SuppressTotalTime` is set.  When `totaltime` was previously
unbound, the accepted object binds `totaltime` to the single elapsed-time
sample and keeps every other measurement binding intact. -/
theorem c3_totaltime_recorded_unless_suppressed :
    ∀ (now : Nat) (m : Metrics), m.has_behavior .Suppress = false →
      ((m.has_behavior .SuppressTotalTime = false →
        emit now m
            = some (m.distribution "totaltime" ((now - m.start_time : Nat) : Int)) ∧
        (lookupA m.measurements "totaltime" = none →
          lookupA (m.distribution "totaltime"
              ((now - m.start_time : Nat) : Int)).measurements "totaltime"
            = some (.distribution (.i64 ((now - m.start_time : Nat) : Int))) ∧
          ∀ n : Name, n ≠ "totaltime" →
            lookupA (m.distribution "totaltime"
                ((now - m.start_time : Nat) : Int)).measurements n
              = lookupA m.measurements n)) ∧
       (m.has_behavior .SuppressTotalTime = true → emit now m = some m)) := by
  intro now m hs
  constructor
  · intro ht
    constructor
    · simp [emit, hs, ht]
    · intro hnone
      constructor
      · simp [Metrics.distribution, lookupA_updateA_self, hnone]
      · intro n hn
        simp [Metrics.distribution, lookupA_updateA_ne hn]
  · intro ht
    simp [emit, hs, ht]

/-- C3 witness: concrete emissions with and without `SuppressTotalTime`, and
the concrete totaltime binding of the accepted object. -/
theorem c3_witness :
    (emit 7 { metrics_name := "x", start_time := 2, behavior := 0,
              dimensions := [], measurements := [("m", Measurement.observation 3)] }
      = some (Metrics.distribution
          { metrics_name := "x", start_time := 2, behavior := 0,
            dimensions := [], measurements := [("m", Measurement.observation 3)] }
          "totaltime" 5)) ∧
    (lookupA (Metrics.distribution
        { metrics_name := "x", start_time := 2, behavior := 0,
          dimensions := [], measurements := [("m", Measurement.observation 3)] }
        "totaltime" 5).measurements "totaltime"
      = some (.distribution (.i64 5))) ∧
    (emit 7 { metrics_name := "x", start_time := 2, behavior := 2,
              dimensions := [], measurements := [] }
      = some { metrics_name := "x", start_time := 2, behavior := 2,
               dimensions := [], measurements := [] }) :=
  ⟨((c3_totaltime_recorded_unless_suppressed 7 _ (by decide)).1 (by decide)).1,
   (((c3_totaltime_recorded_unless_suppressed 7 _ (by decide)).1 (by decide)).2
      (by decide)).1,
   (c3_totaltime_recorded_unless_suppressed 7 _ (by decide)).2 (by decide)⟩

/-- C6: starting from the empty aggregation map, folding two metrics objects
named `test` with dimension `a = dimension` and measurement `v` observing
`22` then `20` yields exactly the map binding that triple to the statistic
set `{min := 20, max := 22, sum := 42, count := 2}`. -/
theorem c6_concrete_statisticset_fold :
    update_metrics_map
      (update_metrics_map ([] : MetricsMap)
        { metrics_name := "test", start_time := 0, behavior := 0,
          dimensions := [("a", "dimension")],
          measurements := [("v", Measurement.observation 22)] })
      { metrics_name := "test", start_time := 0, behavior := 0,
        dimensions := [("a", "dimension")],
        measurements := [("v", Measurement.observation 20)] }
    = [("test", [([("a", "dimension")],
        [("v", Aggregation.statisticSet
            { min := 20, max := 22, sum := 42, count := 2 })])])] := by
  decide

/-- Invariant preserved by folding values into a `StatisticSet`. -/
theorem statisticSet_fold_invariant :
    ∀ (vs : List Int) (s : StatisticSet),
      ((s.count = 0 → s = StatisticSet.default) ∧
        (0 < s.count → s.min ≤ s.max)) →
      (((vs.foldl StatisticSet.accumulate s).count = 0 →
          vs.foldl StatisticSet.accumulate s = StatisticSet.default) ∧
        (0 < (vs.foldl StatisticSet.accumulate s).count →
          (vs.foldl StatisticSet.accumulate s).min
            ≤ (vs.foldl StatisticSet.accumulate s).max)) := by
  intro vs
  induction vs with
  | nil => intro s hs; exact hs
  | cons v vs ih =>
    intro s hs
    refine ih (s.accumulate v) ⟨fun h => absurd h ?_, fun _ => ?_⟩
    · simp [StatisticSet.accumulate]
    · exact le_trans (min_le_left v s.min) (le_max_left v s.max)

/-- C7: every `StatisticSet` reached from the default by a finite sequence
of `accumulate` calls has the sentinel values `min = i64::MAX`,
`max = i64::MIN`, `sum = 0` while `count = 0`, and satisfies `min ≤ max` as
soon as `count > 0`. -/
theorem c7_statisticset_invariant :
    ∀ vs : List Int,
      ((vs.foldl StatisticSet.accumulate StatisticSet.default).count = 0 →
        (vs.foldl StatisticSet.accumulate StatisticSet.default).min = i64Max ∧
        (vs.foldl StatisticSet.accumulate StatisticSet.default).max = i64Min ∧
        (vs.foldl StatisticSet.accumulate StatisticSet.default).sum = 0) ∧
      (0 < (vs.foldl StatisticSet.accumulate StatisticSet.default).count →
        (vs.foldl StatisticSet.accumulate StatisticSet.default).min
          ≤ (vs.foldl StatisticSet.accumulate StatisticSet.default).max) := by
  intro vs
  have h := statisticSet_fold_invariant vs StatisticSet.default
    ⟨fun _ => rfl, fun h0 => absurd h0 (by simp [StatisticSet.default])⟩
  exact ⟨fun h0 => by rw [h.1 h0]; exact ⟨rfl, rfl, rfl⟩, h.2⟩

/-- C7 witness: the sentinel clause at the empty accumulation sequence and
the `min ≤ max` clause after two concrete accumulations. -/
theorem c7_witness :
    (([] : List Int).foldl StatisticSet.accumulate StatisticSet.default).min
        = i64Max ∧
    (([5, 3] : List Int).foldl StatisticSet.accumulate StatisticSet.default).min
        ≤ (([5, 3] : List Int).foldl StatisticSet.accumulate
            StatisticSet.default).max :=
  ⟨((c7_statisticset_invariant []).1 (by decide)).1,
   (c7_statisticset_invariant [5, 3]).2 (by decide)⟩

/-- C8: the default channel bound set by `AggregatingSink::new` is 1024, and
`accept` on a full channel drops the object: the sink state is unchanged, so
the dropped object is never folded into the aggregation map produced by the
aggregation worker. -/
theorem c8_accept_backpressure :
    AggregatingSink.new.bound = 1024 ∧
    ∀ (s : AggregatingSink) (m : Metrics), s.bound ≤ s.queue.length →
      s.accept m = s ∧ (s.accept m).run_aggregator = s.run_aggregator := by
  refine ⟨rfl, ?_⟩
  intro s m h
  have hfull : ¬ s.queue.length < s.bound := by omega
  constructor <;> simp [AggregatingSink.accept, hfull]

/-- C8 witness: a saturated sink of bound 1 drops a concrete object. -/
theorem c8_witness :
    AggregatingSink.accept
        { queue := [{ metrics_name := "q", start_time := 0, behavior := 0,
                      dimensions := [], measurements := [] }],
          bound := 1, map := [] }
        { metrics_name := "x", start_time := 0, behavior := 0,
          dimensions := [], measurements := [] }
      = { queue := [{ metrics_name := "q", start_time := 0, behavior := 0,
                      dimensions := [], measurements := [] }],
          bound := 1, map := [] } :=
  (c8_accept_backpressure.2 _ _ (by decide)).1

/-- Ordered-map insertions of pairs with distinct keys commute. -/
theorem btreeInsert_comm {α β : Type} [LinearOrder α] (a b : α × β)
    (hne : a.1 ≠ b.1) :
    ∀ l : List (α × β),
      btreeInsert b (btreeInsert a l) = btreeInsert a (btreeInsert b l) := by
  obtain ⟨ka, va⟩ := a
  obtain ⟨kb, vb⟩ := b
  intro l
  induction l with
  | nil =>
    rcases lt_trichotomy ka kb with h | h | h
    · simp [btreeInsert, h, h.ne, h.ne', h.not_lt]
    · exact absurd h hne
    · simp [btreeInsert, h, h.ne, h.ne', h.not_lt]
  | cons kv rest ih =>
    obtain ⟨k, v⟩ := kv
    rcases lt_trichotomy ka k with hak | hak | hak
    · rcases lt_trichotomy kb k with hbk | hbk | hbk
      · rcases lt_trichotomy ka kb with hab | hab | hab
        · simp [btreeInsert, hak, hbk, hab, hab.ne', hab.not_lt]
        · exact absurd hab hne
        · simp [btreeInsert, hak, hbk, hab, hab.ne', hab.not_lt]
      · subst hbk
        simp [btreeInsert, hak, hak.ne, hak.ne', hak.not_lt]
      · have hab := hak.trans hbk
        simp [btreeInsert, hak, hbk, hbk.ne', hbk.not_lt, hab.ne', hab.not_lt]
    · rcases lt_trichotomy kb k with hbk | hbk | hbk
      · subst hak
        simp [btreeInsert, hbk, hbk.ne', hbk.not_lt]
      · exact absurd (hak.trans hbk.symm) hne
      · subst hak
        simp [btreeInsert, hbk.ne', hbk.not_lt]
    · rcases lt_trichotomy kb k with hbk | hbk | hbk
      · have hab := hbk.trans hak
        simp [btreeInsert, hak.ne', hak.not_lt, hbk, hab.ne', hab.not_lt]
      · subst hbk
        simp [btreeInsert, hak.ne', hak.not_lt]
      · simp [btreeInsert, hak.ne', hak.not_lt, hbk.ne', hbk.not_lt, ih]

/-- Draining a dimension map with unique keys into a `BTreeMap` does not
depend on the iteration order. -/
theorem dimensionPosition_perm (l1 l2 : List (Name × Dimension))
    (hp : l1.Perm l2) (hnd : (l1.map Prod.fst).Nodup) :
    dimensionPosition l1 = dimensionPosition l2 := by
  unfold dimensionPosition
  refine hp.foldl_eq' ?_ []
  intro x hx y hy z
  by_cases hxy : x = y
  · subst hxy
    rfl
  · have hne : x.1 ≠ y.1 := fun he =>
      hxy (List.inj_on_of_nodup_map hnd hx hy he)
    exact btreeInsert_comm x y hne z

/-- C5: two metrics objects with the same name, the same dimension pairs in
any insertion order (keys unique), and the same measurements fold into the
same entry of the aggregation map: `update_metrics_map` gives identical
results, because the derived `DimensionPosition` depends only on the set of
pairs. -/
theorem c5_dimension_position_order_independent :
    ∀ (map : MetricsMap) (m1 m2 : Metrics),
      m1.metrics_name = m2.metrics_name →
      m1.dimensions.Perm m2.dimensions →
      (m1.dimensions.map Prod.fst).Nodup →
      m1.measurements = m2.measurements →
      update_metrics_map map m1 = update_metrics_map map m2 := by
  intro map m1 m2 hname hperm hnd hmeas
  unfold update_metrics_map
  rw [hname, hmeas, dimensionPosition_perm _ _ hperm hnd]

/-- C5 witness: the same two dimension pairs inserted in opposite orders
aggregate into the same map. -/
theorem c5_witness :
    update_metrics_map ([] : MetricsMap)
        { metrics_name := "test", start_time := 0, behavior := 0,
          dimensions := [("a", "x"), ("b", "y")],
          measurements := [("v", Measurement.observation 1)] }
      = update_metrics_map ([] : MetricsMap)
        { metrics_name := "test", start_time := 3, behavior := 0,
          dimensions := [("b", "y"), ("a", "x")],
          measurements := [("v", Measurement.observation 1)] } :=
  c5_dimension_position_order_independent [] _ _ rfl
    (List.Perm.swap ("b", "y") ("a", "x") []) (by decide) rfl

end Goodmetrics
